import Mathlib

/-!
Verification development for the FTE reporting tool.

The repository computes Full-Time-Equivalent (FTE) funding metrics for
academic course sections.  The numeric pipeline (pandas dataframes over
floating point numbers) is shallowly embedded here over exact rationals
(`ℚ`): every arithmetic step of the source is mirrored, and `round(x, k)`
(numpy/pandas half-even rounding) is modelled by `rhe`, round half to even.
Missing values (`NaN`) are modelled by `Option`, and dataframe cells by the
`Cell` sum type (string / number / missing).
-/

/-- Round half to even (banker's rounding), as used by Python's built-in
`round`, numpy and pandas `.round`. -/
def rhe (x : ℚ) : ℤ :=
  let f := ⌊x⌋
  if x - f < 1/2 then f
  else if 1/2 < x - f then f + 1
  else if f % 2 = 0 then f else f + 1

/-- `round(x, 3)` of pandas: round half to even at 3 decimal places. -/
def rnd3 (x : ℚ) : ℚ := (rhe (x * 1000) : ℚ) / 1000

/-- `round(x, 2)`: round half to even at 2 decimal places. -/
def rnd2 (x : ℚ) : ℚ := (rhe (x * 100) : ℚ) / 100

/-- `round(x, 1)`: round half to even at 1 decimal place. -/
def rnd1 (x : ℚ) : ℚ := (rhe (x * 10) : ℚ) / 10

/-- The Total FTE column computed by `readfile` (functions.py lines 91-100,
web_functions.py lines 271-275):
`merged_df["Total FTE"] = ((Contact Hours * 16 * FTE Count) / 512).round(3)`.
`pd.to_numeric(..., errors="coerce")` turns non-numeric entries into `NaN`
(`none` here), and `NaN` propagates through the arithmetic and the rounding. -/
def readfile_total_fte (contactHours fteCount : Option ℚ) : Option ℚ :=
  match contactHours, fteCount with
  | some ch, some hc => some (rnd3 (ch * 16 * hc / 512))
  | _, _ => none

theorem rhe_abs_le (x : ℚ) : |x - rhe x| ≤ 1/2 := by
  unfold rhe
  have hfl : (⌊x⌋ : ℚ) ≤ x := Int.floor_le x
  have hfu : x < ⌊x⌋ + 1 := Int.lt_floor_add_one x
  by_cases h1 : x - (⌊x⌋ : ℚ) < 1/2
  · simp only [h1, if_true]
    rw [abs_sub_le_iff]
    constructor <;> linarith
  · simp only [h1, if_false]
    by_cases h2 : (1:ℚ)/2 < x - (⌊x⌋ : ℚ)
    · simp only [h2, if_true]
      push_cast
      rw [abs_sub_le_iff]
      constructor <;> linarith
    · simp only [h2, if_false]
      have hx : x - (⌊x⌋ : ℚ) = 1/2 := le_antisymm (not_lt.mp h2) (not_lt.mp h1)
      by_cases h3 : ⌊x⌋ % 2 = 0
      · simp only [h3, if_true]
        rw [abs_sub_le_iff]
        constructor <;> linarith
      · simp only [h3, if_false]
        push_cast
        rw [abs_sub_le_iff]
        constructor <;> linarith

theorem rnd3_close (x : ℚ) : |x - rnd3 x| ≤ 1/2000 := by
  have h := rhe_abs_le (x * 1000)
  unfold rnd3
  rw [abs_sub_le_iff] at h ⊢
  constructor
  · linarith [h.1]
  · linarith [h.2]

/-- C1: for every section row whose Contact Hours and FTE Count inputs parse
as numbers, the Total FTE computed by `readfile` equals
`round(contactHours * 16 * headcount / 512, 3)`: it is a multiple of 1/1000
within 1/2000 of the exact value `contactHours * 16 * headcount / 512`; in
particular contactHours = 3 and headcount = 20 yield exactly 1.875. -/
theorem claim_C1_total_fte :
    (∀ ch hc : ℚ,
      readfile_total_fte (some ch) (some hc) = some (rnd3 (ch * 16 * hc / 512)) ∧
      (∃ n : ℤ, rnd3 (ch * 16 * hc / 512) = (n : ℚ) / 1000) ∧
      |ch * 16 * hc / 512 - rnd3 (ch * 16 * hc / 512)| ≤ 1/2000) ∧
    readfile_total_fte (some 3) (some 20) = some (1875/1000) := by
  refine ⟨fun ch hc => ⟨rfl, ⟨rhe (ch * 16 * hc / 512 * 1000), rfl⟩, rnd3_close _⟩, ?_⟩
  show some (rnd3 (3 * 16 * 20 / 512)) = some (1875/1000)
  norm_num [rnd3, rhe]

/-! ## Dataframe cells and rows (options4.py model)

`options4.generate_fte` / `options4.compute_fte` operate on pandas rows whose
cells may hold strings, numbers or `NaN`. -/

/-- A dataframe cell: a string, a number, or a missing value (`NaN`). -/
inductive Cell
  | str (s : String)
  | num (q : ℚ)
  | na
deriving DecidableEq

/-- A dataframe row: an association list from column name to cell.  Reading an
absent column yields `Cell.na` (in pandas an absent column raises `KeyError`,
but every such read in the modelled code is either guarded by a column-presence
check or caught and mapped to the same default the `NaN` case produces). -/
def getCol (r : List (String × Cell)) (c : String) : Cell :=
  ((r.find? (fun p => p.1 == c)).map (fun p => p.2)).getD Cell.na

/-- Set (or append) one column of a row, mirroring `df[col] = value`. -/
def setColRow (r : List (String × Cell)) (c : String) (v : Cell) :
    List (String × Cell) :=
  if (r.find? (fun p => p.1 == c)).isSome then
    r.map (fun p => if p.1 == c then (p.1, v) else p)
  else r ++ [(c, v)]

/-- Delete one column of a row, mirroring `df.drop(columns=[col])`. -/
def dropColRow (r : List (String × Cell)) (c : String) :
    List (String × Cell) :=
  r.filter (fun p => !(p.1 == c))

/-- A dataframe: a column list plus a list of rows. -/
structure DFrame where
  cols : List String
  rows : List (List (String × Cell))
deriving DecidableEq

/-- `df[c] = f(row)` for every row, adding `c` to the columns if absent. -/
def setCol (df : DFrame) (c : String) (f : List (String × Cell) → Cell) :
    DFrame :=
  { cols := if c ∈ df.cols then df.cols else df.cols ++ [c]
    rows := df.rows.map (fun r => setColRow r c (f r)) }

/-- `df.drop(columns=[c], errors="ignore")`. -/
def dropCol (df : DFrame) (c : String) : DFrame :=
  { cols := df.cols.filter (fun x => !(x == c))
    rows := df.rows.map (fun r => dropColRow r c) }

/-- Python dict lookup in a dict built by a comprehension over rows: the LAST
binding of a key wins, `get` returns `none` for an absent key. -/
def dictGet (d : List (Cell × Cell)) (k : Cell) : Option Cell :=
  (d.reverse.find? (fun p => p.1 == k)).map (fun p => p.2)

/-- The dict comprehension of options4.py lines 559-562:
`{row["Prefix/Course ID"]: row["New Sector"] for _, row in tier.iterrows()}`
(no `notna` filter in this path). -/
def tierDict (tier : DFrame) : List (Cell × Cell) :=
  tier.rows.map (fun r => (getCol r "Prefix/Course ID", getCol r "New Sector"))

/-- options4.py `compute_fte(row, courseid_to_funding, support=1926)`
(lines 581-626): requires `Sec Name` to be a string of length at least 3 and
`Total FTE` to be a number, looks the first three characters of the section
name up in the funding dict with default 0, and returns
`(prop_fund + support) * total_fte`; every error path (missing column,
non-string name, short name, non-numeric FTE, non-numeric funding value)
is caught and returns 0. -/
def compute_fte (row : List (String × Cell)) (d : List (Cell × Cell))
    (support : ℚ) : ℚ :=
  match getCol row "Sec Name" with
  | Cell.str s =>
      if s.length < 3 then 0
      else
        match getCol row "Total FTE" with
        | Cell.num t =>
            match dictGet d (Cell.str (s.take 3)) with
            | some (Cell.num m) => (m + support) * t
            | some _ => 0
            | none => (0 + support) * t
        | _ => 0
  | _ => 0

/-- The default of the named `support` parameter of `compute_fte` and
`generate_fte` (options4.py lines 511, 581). -/
def supportDefault : ℚ := 1926

/-- `data["Sec Name"].str[:3]` followed by `.fillna("UNKNOWN")`
(options4.py lines 557-558). -/
def pfxCell (c : Cell) : Cell :=
  match c with
  | Cell.str s => Cell.str (s.take 3)
  | _ => Cell.str "UNKNOWN"

/-- options4.py `generate_fte(data, tier, support=1926)` (lines 511-578):
if any of the required columns (`Prefix/Course ID` and `New Sector` in the
tier table, `Sec Name` and `Total FTE` in the data) is missing, the raised
`KeyError` is caught and the data is returned unchanged; otherwise a scratch
`_Course Prefix` column is written, `Generated FTE` is set to
`compute_fte(row, dict, support)` for every row, and the scratch column is
dropped again. -/
def generate_fte (data tier : DFrame) (support : ℚ) : DFrame :=
  if "Prefix/Course ID" ∈ tier.cols ∧ "New Sector" ∈ tier.cols ∧
     "Sec Name" ∈ data.cols ∧ "Total FTE" ∈ data.cols then
    let d := tierDict tier
    let d1 := setCol data "_Course Prefix" (fun r => pfxCell (getCol r "Sec Name"))
    let d2 := setCol d1 "Generated FTE" (fun r => Cell.num (compute_fte r d support))
    dropCol d2 "_Course Prefix"
  else data

/-- C2: for every row with a numeric Total FTE and a resolved (numeric) tier
multiplier for its 3-character section-name prefix, `compute_fte` returns
`totalFTE * (multiplier + support)`; `support` is a named parameter (modelled
as the explicit argument `support`, default `supportDefault = 1926`),
overridable by the caller. -/
theorem claim_C2_generated_fte (row : List (String × Cell))
    (d : List (Cell × Cell)) (support : ℚ) (s : String) (t m : ℚ)
    (hs : getCol row "Sec Name" = Cell.str s) (hlen : 3 ≤ s.length)
    (ht : getCol row "Total FTE" = Cell.num t)
    (hm : dictGet d (Cell.str (s.take 3)) = some (Cell.num m)) :
    compute_fte row d support = t * (m + support) := by
  have h3 : ¬ s.length < 3 := not_lt.mpr hlen
  simp only [compute_fte, hs, ht, hm, if_neg h3]
  ring

theorem claim_C2_generated_fte_witness :
    compute_fte [("Sec Name", Cell.str "CSC-121-001"), ("Total FTE", Cell.num 2)]
      [(Cell.str "CSC", Cell.num 74)] 1926 = 2 * (74 + 1926) := by
  have h := claim_C2_generated_fte
    [("Sec Name", Cell.str "CSC-121-001"), ("Total FTE", Cell.num 2)]
    [(Cell.str "CSC", Cell.num 74)] 1926 "CSC-121-001" 2 74
    (by decide) (by decide) (by decide) (by decide)
  exact h

/-! ## Division FTE aggregation (functions.py `division_fte` lines 441-555,
web_functions.py `fte_by_div_raw` lines 357-432)

The loop walks the division's rows (pre-sorted by Course Code and Sec Name),
emits a "Total" subtotal row whenever the course key changes, then the section
row itself, and after the loop a final subtotal and a "DIVISION TOTAL" grand
total row.  Display-only fields of the emitted rows (the Division label shown
on the first row, the run-length-suppressed Course Code cell, Enrollment Per)
are omitted from the model; the numeric content and the row kinds are kept. -/

/-- An input section row of the division report: the extracted course code
(`none` for a row where the regex found no match, pandas `NaN`), the section
name, and the Total FTE (`none` = `NaN`). -/
structure DSect where
  secName : Option String
  course : Option String
  totalFTE : Option ℚ
deriving DecidableEq

/-- Python `!=` on course-code cells where `none` stands for `NaN`:
`NaN != x` is `True` for every `x`, including `NaN` itself. -/
def pyNe (a b : Option String) : Bool :=
  match a, b with
  | some x, some y => x != y
  | _, _ => true

/-- The Generated FTE of one section row (functions.py lines 467-480):
`sec = row["Sec Name"][:3] if not isna else ""`,
`new_sector_value = fte_lookup.get(sec, 0)`,
`total_fte = float(row["Total FTE"]) if notna else 0`,
`adjusted_fte = total_fte * (new_sector_value + 1926)`. -/
def rowGen (lk : String → Option ℚ) (r : DSect) : ℚ :=
  let pfx := match r.secName with | some s => s.take 3 | none => ""
  (r.totalFTE.getD 0) * ((lk pfx).getD 0 + 1926)

/-- An output row of the division report: a section row, a per-course "Total"
subtotal row, or the final "DIVISION TOTAL" row (carrying the summed original
Total FTE and the summed Generated FTE). -/
inductive ORow
  | sec (r : DSect) (gen : ℚ)
  | courseTotal (gen : ℚ)
  | grandTotal (t gen : ℚ)
deriving DecidableEq

/-- The loop state of `division_fte`: rows emitted so far, the Python
`current_course` (`none` = Python `None`, `some none` = a `NaN` course cell),
the running course total, the grand generated total, and the grand original
total. -/
structure AggState where
  out : List ORow
  current : Option (Option String)
  courseTot : ℚ
  grandGen : ℚ
  grandOrig : ℚ

/-- One iteration of the `division_fte` row loop. -/
def aggStep (lk : String → Option ℚ) (st : AggState) (r : DSect) : AggState :=
  let emit : Bool :=
    match st.current with
    | some cv => pyNe r.course cv
    | none => false
  let t := r.totalFTE.getD 0
  let g := rowGen lk r
  { out := (if emit then st.out ++ [ORow.courseTotal st.courseTot] else st.out)
           ++ [ORow.sec r g]
    current := some r.course
    courseTot := (if emit then 0 else st.courseTot) + g
    grandGen := if emit then st.grandGen + st.courseTot else st.grandGen
    grandOrig := st.grandOrig + t }

/-- The epilogue of `division_fte` (lines 517-555): a final course subtotal if
any row was seen, then the grand total row. -/
def aggFinish (st : AggState) : List ORow :=
  match st.current with
  | some _ => st.out ++ [ORow.courseTotal st.courseTot,
                         ORow.grandTotal st.grandOrig (st.grandGen + st.courseTot)]
  | none => st.out ++ [ORow.grandTotal st.grandOrig st.grandGen]

/-- The full aggregation of `division_fte` over the (pre-sorted) rows of one
division, given the tier lookup `lk` (`FTE_Tier.xlsx` as a map from prefix to
New Sector multiplier). -/
def division_fte_agg (lk : String → Option ℚ) (rows : List DSect) : List ORow :=
  aggFinish (rows.foldl (aggStep lk) ⟨[], none, 0, 0, 0⟩)

/-- C3: for every section row whose lookup key (3-character section-name
prefix) is absent from the tier table, the multiplier lookup falls back to 0
and the Generated FTE equals `totalFTE * 1926` (with the default support
constant 1926); this holds both for `compute_fte` (options4.py lines 615-617,
`courseid_to_funding.get(course_prefix, 0)`) and for the division-report row
computation (functions.py lines 467-480, `fte_lookup.get(sec, 0)`).  Neither
lookup can fail: both are total functions with an explicit default. -/
theorem claim_C3_missing_tier_default
    (row : List (String × Cell)) (d : List (Cell × Cell)) (s : String) (t : ℚ)
    (lk : String → Option ℚ) (r : DSect) (s2 : String) (t2 : ℚ)
    (hs : getCol row "Sec Name" = Cell.str s) (hlen : 3 ≤ s.length)
    (ht : getCol row "Total FTE" = Cell.num t)
    (hmiss : dictGet d (Cell.str (s.take 3)) = none)
    (hs2 : r.secName = some s2) (ht2 : r.totalFTE = some t2)
    (hmiss2 : lk (s2.take 3) = none) :
    compute_fte row d supportDefault = t * 1926 ∧
    rowGen lk r = t2 * 1926 := by
  constructor
  · have h3 : ¬ s.length < 3 := not_lt.mpr hlen
    simp only [compute_fte, hs, ht, hmiss, if_neg h3, supportDefault]
    ring
  · simp only [rowGen, hs2, ht2, hmiss2, Option.getD_some, Option.getD_none]
    ring

theorem claim_C3_missing_tier_default_witness :
    compute_fte [("Sec Name", Cell.str "ZZZ-101-001"), ("Total FTE", Cell.num 3)]
      [(Cell.str "CSC", Cell.num 74)] supportDefault = 3 * 1926 ∧
    rowGen (fun p => if p = "CSC" then some 74 else none)
      ⟨some "ZZZ-101-001", some "ZZZ-101", some 3⟩ = 3 * 1926 := by
  have h := claim_C3_missing_tier_default
    [("Sec Name", Cell.str "ZZZ-101-001"), ("Total FTE", Cell.num 3)]
    [(Cell.str "CSC", Cell.num 74)] "ZZZ-101-001" 3
    (fun p => if p = "CSC" then some 74 else none)
    ⟨some "ZZZ-101-001", some "ZZZ-101", some 3⟩ "ZZZ-101-001" 3
    (by decide) (by decide) (by decide) (by decide) rfl rfl (by decide)
  exact h

/-! ## Structure of the aggregated division report -/

/-- Sum of Generated FTE over a list of section rows. -/
def gsum (lk : String → Option ℚ) (g : List DSect) : ℚ :=
  (g.map (rowGen lk)).sum

/-- Sum of the original Total FTE over a list of section rows
(`NaN` contributing 0, as in the source). -/
def osum (g : List DSect) : ℚ :=
  (g.map (fun r => r.totalFTE.getD 0)).sum

/-- The section output rows for a group of input rows. -/
def secsOf (lk : String → Option ℚ) (g : List DSect) : List ORow :=
  g.map (fun r => ORow.sec r (rowGen lk r))

/-- Flatten a list of labelled course groups into the input row sequence. -/
def flattenG (ps : List (String × List DSect)) : List DSect :=
  (ps.map Prod.snd).flatten

/-- Sum of the per-group Generated FTE sums. -/
def gsums (lk : String → Option ℚ) (ps : List (String × List DSect)) : ℚ :=
  (ps.map (fun p => gsum lk p.2)).sum

/-- The expected shape of the division report: for every course group its
section rows followed by a subtotal row holding that group's Generated FTE
sum, and a final grand-total row holding the total original FTE and the total
Generated FTE. -/
def fullOut (lk : String → Option ℚ) (ps : List (String × List DSect)) :
    List ORow :=
  (ps.map (fun p => secsOf lk p.2 ++ [ORow.courseTotal (gsum lk p.2)])).flatten
  ++ [ORow.grandTotal (osum (flattenG ps)) (gsums lk ps)]

/-- A well-formed grouping of the division's input rows: every group is
nonempty, all rows of a group carry that group's course code, and adjacent
groups have distinct codes (this is what sorting by Course Code produces). -/
def GroupedOk (ps : List (String × List DSect)) : Prop :=
  (∀ p ∈ ps, p.2 ≠ [] ∧ ∀ r ∈ p.2, r.course = some p.1) ∧
  List.Chain' (fun a b => a.1 ≠ b.1) ps

theorem foldl_const_course (lk : String → Option ℚ) (c : String) :
    ∀ (g : List DSect) (st : AggState),
      (∀ r ∈ g, r.course = some c) → st.current = some (some c) →
      g.foldl (aggStep lk) st =
        ⟨st.out ++ secsOf lk g, some (some c),
         st.courseTot + gsum lk g, st.grandGen, st.grandOrig + osum g⟩ := by
  intro g
  induction g with
  | nil =>
      intro st hg hcur
      obtain ⟨o, cur, ct, gg, go⟩ := st
      simp only [AggState.current] at hcur
      subst hcur
      simp [secsOf, gsum, osum]
  | cons r rs ih =>
      intro st hg hcur
      have hr : r.course = some c := hg r (List.mem_cons_self r rs)
      have hstep : aggStep lk st r =
          ⟨st.out ++ [ORow.sec r (rowGen lk r)], some (some c),
           st.courseTot + rowGen lk r, st.grandGen,
           st.grandOrig + r.totalFTE.getD 0⟩ := by
        simp [aggStep, hcur, hr, pyNe]
      rw [List.foldl_cons, hstep,
          ih _ (fun x hx => hg x (List.mem_cons_of_mem _ hx)) rfl]
      simp [secsOf, gsum, osum, add_assoc]

theorem foldl_group_from_none (lk : String → Option ℚ) (c : String)
    (g : List DSect) (hne : g ≠ [])
    (hc : ∀ r ∈ g, r.course = some c) (st : AggState)
    (hcur : st.current = none) :
    g.foldl (aggStep lk) st =
      ⟨st.out ++ secsOf lk g, some (some c),
       st.courseTot + gsum lk g, st.grandGen, st.grandOrig + osum g⟩ := by
  match g, hne with
  | r :: rs, _ =>
    have hr : r.course = some c := hc r (List.mem_cons_self r rs)
    have hstep : aggStep lk st r =
        ⟨st.out ++ [ORow.sec r (rowGen lk r)], some (some c),
         st.courseTot + rowGen lk r, st.grandGen,
         st.grandOrig + r.totalFTE.getD 0⟩ := by
      simp [aggStep, hcur, hr]
    rw [List.foldl_cons, hstep,
        foldl_const_course lk c rs _
          (fun x hx => hc x (List.mem_cons_of_mem _ hx)) rfl]
    simp [secsOf, gsum, osum, add_assoc]

theorem foldl_group_emit (lk : String → Option ℚ) (c : String)
    (g : List DSect) (hne : g ≠ [])
    (hc : ∀ r ∈ g, r.course = some c) (st : AggState) (cv : Option String)
    (hcur : st.current = some cv) (hb : pyNe (some c) cv = true) :
    g.foldl (aggStep lk) st =
      ⟨st.out ++ [ORow.courseTotal st.courseTot] ++ secsOf lk g,
       some (some c), gsum lk g, st.grandGen + st.courseTot,
       st.grandOrig + osum g⟩ := by
  match g, hne with
  | r :: rs, _ =>
    have hr : r.course = some c := hc r (List.mem_cons_self r rs)
    have hstep : aggStep lk st r =
        ⟨st.out ++ [ORow.courseTotal st.courseTot] ++ [ORow.sec r (rowGen lk r)],
         some (some c), 0 + rowGen lk r, st.grandGen + st.courseTot,
         st.grandOrig + r.totalFTE.getD 0⟩ := by
      simp [aggStep, hcur, hr, hb]
    rw [List.foldl_cons, hstep,
        foldl_const_course lk c rs _
          (fun x hx => hc x (List.mem_cons_of_mem _ hx)) rfl]
    simp [secsOf, gsum, osum, add_assoc]

theorem osum_append (a b : List DSect) : osum (a ++ b) = osum a + osum b := by
  simp [osum]

theorem gsum_append (lk : String → Option ℚ) (a b : List DSect) :
    gsum lk (a ++ b) = gsum lk a + gsum lk b := by
  simp [gsum]

theorem aggFinish_foldl_groups (lk : String → Option ℚ) :
    ∀ (ps : List (String × List DSect)) (st : AggState) (cv : Option String),
      (∀ p ∈ ps, p.2 ≠ [] ∧ ∀ r ∈ p.2, r.course = some p.1) →
      List.Chain' (fun a b => a.1 ≠ b.1) ps →
      (∀ p0 ∈ ps.head?, pyNe (some p0.1) cv = true) →
      st.current = some cv →
      aggFinish ((flattenG ps).foldl (aggStep lk) st) =
        st.out ++ [ORow.courseTotal st.courseTot] ++
        (ps.map (fun p => secsOf lk p.2 ++
                          [ORow.courseTotal (gsum lk p.2)])).flatten ++
        [ORow.grandTotal (st.grandOrig + osum (flattenG ps))
                         (st.grandGen + st.courseTot + gsums lk ps)] := by
  intro ps
  induction ps with
  | nil =>
      intro st cv _ _ _ hcur
      simp [flattenG, aggFinish, hcur, gsums, osum]
  | cons p ps ih =>
      intro st cv hok hchain hhead hcur
      have hp := hok p (List.mem_cons_self p ps)
      have hb : pyNe (some p.1) cv = true := hhead p (by simp)
      have hflat : flattenG (p :: ps) = p.2 ++ flattenG ps := by
        simp [flattenG]
      rw [hflat, List.foldl_append,
          foldl_group_emit lk p.1 p.2 hp.1 hp.2 st cv hcur hb]
      have hchain2 := List.chain'_cons'.mp hchain
      rw [ih _ (some p.1)
            (fun q hq => hok q (List.mem_cons_of_mem _ hq))
            hchain2.2
            (by
              intro p0 hp0
              have hne := hchain2.1 p0 hp0
              simp [pyNe, bne_iff_ne]
              exact fun he => hne he.symm)
            rfl]
      simp only [gsums, List.map_cons, List.sum_cons, List.flatten_cons]
      rw [osum_append]
      simp [List.append_assoc, add_assoc]

theorem division_agg_structure (lk : String → Option ℚ)
    (ps : List (String × List DSect)) (h : GroupedOk ps) :
    division_fte_agg lk (flattenG ps) = fullOut lk ps := by
  match ps with
  | [] =>
      simp [flattenG, division_fte_agg, aggFinish, fullOut, gsums, osum]
  | p :: ps =>
      have hp := h.1 p (List.mem_cons_self p ps)
      have hchain2 := List.chain'_cons'.mp h.2
      have hflat : flattenG (p :: ps) = p.2 ++ flattenG ps := by
        simp [flattenG]
      unfold division_fte_agg
      rw [hflat, List.foldl_append,
          foldl_group_from_none lk p.1 p.2 hp.1 hp.2 _ rfl,
          aggFinish_foldl_groups lk ps _ (some p.1)
            (fun q hq => h.1 q (List.mem_cons_of_mem _ hq))
            hchain2.2
            (by
              intro p0 hp0
              have hne := hchain2.1 p0 hp0
              simp [pyNe, bne_iff_ne]
              exact fun he => hne he.symm)
            rfl]
      unfold fullOut
      rw [hflat, osum_append]
      simp only [gsums, List.map_cons, List.sum_cons, List.flatten_cons]
      simp [List.append_assoc, add_assoc, gsums]

/-- The Generated FTE values of the "Total" (course subtotal) rows of a
report, in order. -/
def courseTotalVals (l : List ORow) : List ℚ :=
  l.filterMap (fun x => match x with
    | ORow.courseTotal g => some g
    | _ => none)

/-- The (Total FTE, Generated FTE) pair of the final row of a report, if the
final row is the grand-total row. -/
def grandOf (l : List ORow) : Option (ℚ × ℚ) :=
  match l.getLast? with
  | some (ORow.grandTotal t g) => some (t, g)
  | _ => none

theorem courseTotalVals_append (a b : List ORow) :
    courseTotalVals (a ++ b) = courseTotalVals a ++ courseTotalVals b := by
  simp [courseTotalVals]

theorem courseTotalVals_secsOf (lk : String → Option ℚ) (g : List DSect) :
    courseTotalVals (secsOf lk g) = [] := by
  induction g with
  | nil => rfl
  | cons r rs ih => simp [courseTotalVals, secsOf] at ih ⊢

theorem courseTotalVals_mid (lk : String → Option ℚ)
    (ps : List (String × List DSect)) :
    courseTotalVals ((ps.map (fun p => secsOf lk p.2 ++
        [ORow.courseTotal (gsum lk p.2)])).flatten) =
      ps.map (fun p => gsum lk p.2) := by
  induction ps with
  | nil => rfl
  | cons p ps ih =>
      simp only [List.map_cons, List.flatten_cons, courseTotalVals_append,
                 courseTotalVals_secsOf, ih]
      rfl

theorem courseTotalVals_fullOut (lk : String → Option ℚ)
    (ps : List (String × List DSect)) :
    courseTotalVals (fullOut lk ps) = ps.map (fun p => gsum lk p.2) := by
  unfold fullOut
  rw [courseTotalVals_append, courseTotalVals_mid]
  simp [courseTotalVals]

theorem gsum_flattenG (lk : String → Option ℚ)
    (ps : List (String × List DSect)) :
    gsum lk (flattenG ps) = gsums lk ps := by
  induction ps with
  | nil => rfl
  | cons p ps ih =>
      have hflat : flattenG (p :: ps) = p.2 ++ flattenG ps := by
        simp [flattenG]
      rw [hflat, gsum_append, ih]
      simp [gsums]

/-- C5: in the division FTE report, the Generated FTE of each course subtotal
("Total") row equals the exact sum of the Generated FTE values of the section
rows of its course group, and the grand-total row carries exactly the sum of
all per-section original FTEs and the sum of all per-section Generated FTEs,
which equals the sum of all course subtotals — aggregation introduces no
drift (sums over exact rationals). -/
theorem claim_C5_subtotals_exact (lk : String → Option ℚ)
    (ps : List (String × List DSect)) (h : GroupedOk ps) :
    courseTotalVals (division_fte_agg lk (flattenG ps)) =
      ps.map (fun p => gsum lk p.2) ∧
    grandOf (division_fte_agg lk (flattenG ps)) =
      some (osum (flattenG ps), gsum lk (flattenG ps)) ∧
    (ps.map (fun p => gsum lk p.2)).sum = gsum lk (flattenG ps) := by
  rw [division_agg_structure lk ps h]
  refine ⟨courseTotalVals_fullOut lk ps, ?_, ?_⟩
  · unfold fullOut grandOf
    rw [List.getLast?_concat, gsum_flattenG]
  · rw [gsum_flattenG]
    rfl

theorem claim_C5_subtotals_exact_witness :
    courseTotalVals (division_fte_agg (fun _ => none)
        (flattenG [("CSC-121",
            [⟨some "CSC-121-001", some "CSC-121", some 1⟩,
             ⟨some "CSC-121-002", some "CSC-121", some 2⟩]),
          ("ENG-111", [⟨some "ENG-111-001", some "ENG-111", some 4⟩])])) =
      [5778, 7704] ∧
    grandOf (division_fte_agg (fun _ => none)
        (flattenG [("CSC-121",
            [⟨some "CSC-121-001", some "CSC-121", some 1⟩,
             ⟨some "CSC-121-002", some "CSC-121", some 2⟩]),
          ("ENG-111", [⟨some "ENG-111-001", some "ENG-111", some 4⟩])])) =
      some (7, 13482) := by
  have h := claim_C5_subtotals_exact (fun _ => none)
    [("CSC-121",
        [⟨some "CSC-121-001", some "CSC-121", some 1⟩,
         ⟨some "CSC-121-002", some "CSC-121", some 2⟩]),
      ("ENG-111", [⟨some "ENG-111-001", some "ENG-111", some 4⟩])]
    ⟨by decide, by simp [List.chain'_cons]⟩
  constructor
  · refine h.1.trans ?_
    simp [gsum, rowGen]
    norm_num
  · refine h.2.1.trans ?_
    simp [gsum, osum, rowGen, flattenG]
    norm_num

theorem zip_gsum_eq (lk : String → Option ℚ)
    (ps : List (String × List DSect)) :
    ((ps.zip (ps.map (fun p => gsum lk p.2))).map
      (fun q => secsOf lk q.1.2 ++ [ORow.courseTotal q.2])) =
    ps.map (fun p => secsOf lk p.2 ++ [ORow.courseTotal (gsum lk p.2)]) := by
  induction ps with
  | nil => rfl
  | cons p ps ih =>
      simp only [List.map_cons, List.zip_cons_cons]
      rw [ih]

/-- C6: in every aggregated division report produced from a non-empty grouped
input, each course subtotal row appears immediately after the last section row
of its course group, and the grand-total row is the last row of the output. -/
theorem claim_C6_report_shape (lk : String → Option ℚ)
    (ps : List (String × List DSect)) (h : GroupedOk ps) (_hne : ps ≠ []) :
    ∃ subs : List ℚ, subs.length = ps.length ∧ ∃ a b : ℚ,
      division_fte_agg lk (flattenG ps) =
        ((ps.zip subs).map
          (fun q => secsOf lk q.1.2 ++ [ORow.courseTotal q.2])).flatten
        ++ [ORow.grandTotal a b] := by
  refine ⟨ps.map (fun p => gsum lk p.2), by simp, osum (flattenG ps),
          gsums lk ps, ?_⟩
  rw [division_agg_structure lk ps h]
  unfold fullOut
  rw [zip_gsum_eq]

theorem claim_C6_report_shape_witness :
    ∃ subs : List ℚ, subs.length = 2 ∧ ∃ a b : ℚ,
      division_fte_agg (fun _ => none)
        (flattenG [("CSC-121",
            [⟨some "CSC-121-001", some "CSC-121", some 1⟩,
             ⟨some "CSC-121-002", some "CSC-121", some 2⟩]),
          ("ENG-111", [⟨some "ENG-111-001", some "ENG-111", some 4⟩])]) =
        (([("CSC-121",
            [⟨some "CSC-121-001", some "CSC-121", some 1⟩,
             ⟨some "CSC-121-002", some "CSC-121", some 2⟩]),
           ("ENG-111", [⟨some "ENG-111-001", some "ENG-111", some 4⟩])].zip
             subs).map
          (fun q => secsOf (fun _ => none) q.1.2 ++ [ORow.courseTotal q.2])).flatten
        ++ [ORow.grandTotal a b] := by
  have h := claim_C6_report_shape (fun _ => none)
    [("CSC-121",
        [⟨some "CSC-121-001", some "CSC-121", some 1⟩,
         ⟨some "CSC-121-002", some "CSC-121", some 2⟩]),
      ("ENG-111", [⟨some "ENG-111-001", some "ENG-111", some 4⟩])]
    ⟨by decide, by simp [List.chain'_cons]⟩ (by decide)
  exact h

/-! ## Section deduplication (options4.py `remove_duplicate_sections`
lines 420-439, plain `drop_duplicates(subset="Sec Name")` call sites in
functions.py lines 285-289 (`option2_enrollment`), line 742
(`fte_per_course`) and web_functions.py line 508
(`calculate_fte_by_course`)). -/

/-- An input record for deduplication: section name, meeting times (`none` =
`NaN`), and a number standing in for the rest of the row's payload. -/
structure SRow where
  secName : Option String
  meetingTimes : Option String
  rest : ℕ
deriving DecidableEq

/-- Strict lexicographic order on strings by code point, the comparison
Python uses when pandas sorts an object column of strings. -/
def strLtL : List Char → List Char → Bool
  | [], [] => false
  | [], _ :: _ => true
  | _ :: _, [] => false
  | a :: as, b :: bs =>
      if a.toNat < b.toNat then true
      else if b.toNat < a.toNat then false
      else strLtL as bs

/-- Reflexive lexicographic order on strings by code point. -/
def strLeL : List Char → List Char → Bool
  | [], _ => true
  | _ :: _, [] => false
  | a :: as, b :: bs =>
      if a.toNat < b.toNat then true
      else if b.toNat < a.toNat then false
      else strLeL as bs

/-- Strict order on sortable cells with `NaN` sorted last
(`na_position="last"`). -/
def keyLt (a b : Option String) : Bool :=
  match a, b with
  | some x, some y => strLtL x.data y.data
  | some _, none => true
  | none, _ => false

/-- Reflexive order on sortable cells with `NaN` sorted last. -/
def keyLe (a b : Option String) : Bool :=
  match a, b with
  | some x, some y => strLeL x.data y.data
  | none, some _ => false
  | _, none => true

/-- The lexicographic sort key of
`frame.sort_values(by=["Sec Name", "Meeting Times"], na_position="last")`. -/
def rowLe (r1 r2 : SRow) : Bool :=
  keyLt r1.secName r2.secName ||
  (decide (r1.secName = r2.secName) && keyLe r1.meetingTimes r2.meetingTimes)

theorem strLtL_irrefl : ∀ l : List Char, strLtL l l = false := by
  intro l
  induction l with
  | nil => rfl
  | cons a as ih => simp [strLtL, ih]

theorem strLeL_refl : ∀ l : List Char, strLeL l l = true := by
  intro l
  induction l with
  | nil => rfl
  | cons a as ih => simp [strLeL, ih]

theorem strLtL_trans :
    ∀ a b c : List Char, strLtL a b = true → strLtL b c = true →
      strLtL a c = true := by
  intro a
  induction a with
  | nil =>
      intro b c h1 h2
      cases b with
      | nil => simp [strLtL] at h1
      | cons y bs =>
          cases c with
          | nil => simp [strLtL] at h2
          | cons z cs => simp [strLtL]
  | cons x as ih =>
      intro b c h1 h2
      cases b with
      | nil => simp [strLtL] at h1
      | cons y bs =>
          cases c with
          | nil => simp [strLtL] at h2
          | cons z cs =>
              simp only [strLtL] at h1 h2 ⊢
              by_cases hxy : x.toNat < y.toNat
              · by_cases hyz : y.toNat < z.toNat
                · rw [if_pos (Nat.lt_trans hxy hyz)]
                · by_cases hzy : z.toNat < y.toNat
                  · rw [if_neg hyz, if_pos hzy] at h2
                    exact absurd h2 (by simp)
                  · rw [if_pos (by omega : x.toNat < z.toNat)]
              · by_cases hyx : y.toNat < x.toNat
                · rw [if_neg hxy, if_pos hyx] at h1
                  exact absurd h1 (by simp)
                · rw [if_neg hxy, if_neg hyx] at h1
                  by_cases hyz : y.toNat < z.toNat
                  · rw [if_pos (by omega : x.toNat < z.toNat)]
                  · by_cases hzy : z.toNat < y.toNat
                    · rw [if_neg hyz, if_pos hzy] at h2
                      exact absurd h2 (by simp)
                    · rw [if_neg hyz, if_neg hzy] at h2
                      rw [if_neg (by omega : ¬ x.toNat < z.toNat),
                          if_neg (by omega : ¬ z.toNat < x.toNat)]
                      exact ih bs cs h1 h2

theorem strLeL_trans :
    ∀ a b c : List Char, strLeL a b = true → strLeL b c = true →
      strLeL a c = true := by
  intro a
  induction a with
  | nil => intro b c _ _; rfl
  | cons x as ih =>
      intro b c h1 h2
      cases b with
      | nil => simp [strLeL] at h1
      | cons y bs =>
          cases c with
          | nil => simp [strLeL] at h2
          | cons z cs =>
              simp only [strLeL] at h1 h2 ⊢
              by_cases hxy : x.toNat < y.toNat
              · by_cases hyz : y.toNat < z.toNat
                · rw [if_pos (Nat.lt_trans hxy hyz)]
                · by_cases hzy : z.toNat < y.toNat
                  · rw [if_neg hyz, if_pos hzy] at h2
                    exact absurd h2 (by simp)
                  · rw [if_pos (by omega : x.toNat < z.toNat)]
              · by_cases hyx : y.toNat < x.toNat
                · rw [if_neg hxy, if_pos hyx] at h1
                  exact absurd h1 (by simp)
                · rw [if_neg hxy, if_neg hyx] at h1
                  by_cases hyz : y.toNat < z.toNat
                  · rw [if_pos (by omega : x.toNat < z.toNat)]
                  · by_cases hzy : z.toNat < y.toNat
                    · rw [if_neg hyz, if_pos hzy] at h2
                      exact absurd h2 (by simp)
                    · rw [if_neg hyz, if_neg hzy] at h2
                      rw [if_neg (by omega : ¬ x.toNat < z.toNat),
                          if_neg (by omega : ¬ z.toNat < x.toNat)]
                      exact ih bs cs h1 h2

theorem strLtL_tricho :
    ∀ a b : List Char, strLtL a b = true ∨ strLtL b a = true ∨ a = b := by
  intro a
  induction a with
  | nil =>
      intro b
      cases b with
      | nil => right; right; rfl
      | cons y bs => left; rfl
  | cons x as ih =>
      intro b
      cases b with
      | nil => right; left; rfl
      | cons y bs =>
          by_cases hxy : x.toNat < y.toNat
          · left; simp [strLtL, hxy]
          · by_cases hyx : y.toNat < x.toNat
            · right; left; simp [strLtL, hyx]
            · have hn : x.toNat = y.toNat := by omega
              have hchar : x = y := Char.ext (UInt32.toNat.inj hn)
              rcases ih bs with h | h | h
              · left; simp [strLtL, hxy, hyx, h]
              · right; left; simp [strLtL, hxy, hyx, h]
              · right; right; rw [hchar, h]

theorem strLeL_total :
    ∀ a b : List Char, strLeL a b = true ∨ strLeL b a = true := by
  intro a
  induction a with
  | nil => intro b; left; rfl
  | cons x as ih =>
      intro b
      cases b with
      | nil => right; rfl
      | cons y bs =>
          by_cases hxy : x.toNat < y.toNat
          · left; simp [strLeL, hxy]
          · by_cases hyx : y.toNat < x.toNat
            · right; simp [strLeL, hyx]
            · rcases ih bs with h | h
              · left; simp [strLeL, hxy, hyx, h]
              · right; simp [strLeL, hxy, hyx, h]

theorem keyLt_irrefl (a : Option String) : keyLt a a = false := by
  cases a with
  | none => rfl
  | some x => simp [keyLt, strLtL_irrefl]

theorem keyLe_refl (a : Option String) : keyLe a a = true := by
  cases a with
  | none => rfl
  | some x => simp [keyLe, strLeL_refl]

theorem keyLt_tricho (a b : Option String) :
    keyLt a b = true ∨ keyLt b a = true ∨ a = b := by
  cases a with
  | none => cases b with
    | none => right; right; rfl
    | some y => right; left; simp [keyLt]
  | some x => cases b with
    | none => left; simp [keyLt]
    | some y =>
        rcases strLtL_tricho x.data y.data with h | h | h
        · left; simp [keyLt, h]
        · right; left; simp [keyLt, h]
        · right; right; rw [String.ext h]

theorem keyLe_total (a b : Option String) :
    keyLe a b = true ∨ keyLe b a = true := by
  cases a with
  | none => cases b with
    | none => left; rfl
    | some y => right; rfl
  | some x => cases b with
    | none => left; rfl
    | some y =>
        rcases strLeL_total x.data y.data with h | h
        · left; simp [keyLe, h]
        · right; simp [keyLe, h]

theorem keyLt_trans (a b c : Option String) (h1 : keyLt a b = true)
    (h2 : keyLt b c = true) : keyLt a c = true := by
  cases a <;> cases b <;> cases c <;> simp_all [keyLt]
  exact strLtL_trans _ _ _ h1 h2

theorem keyLe_trans (a b c : Option String) (h1 : keyLe a b = true)
    (h2 : keyLe b c = true) : keyLe a c = true := by
  cases a <;> cases b <;> cases c <;> simp_all [keyLe]
  exact strLeL_trans _ _ _ h1 h2

theorem rowLe_total (a b : SRow) : rowLe a b = true ∨ rowLe b a = true := by
  unfold rowLe
  rcases keyLt_tricho a.secName b.secName with h | h | h
  · left; simp [h]
  · right; simp [h]
  · rcases keyLe_total a.meetingTimes b.meetingTimes with h2 | h2
    · left; simp [h, h2]
    · right; simp [h, h2]

theorem rowLe_trans (a b c : SRow) (h1 : rowLe a b = true)
    (h2 : rowLe b c = true) : rowLe a c = true := by
  unfold rowLe at h1 h2 ⊢
  simp only [Bool.or_eq_true, Bool.and_eq_true, decide_eq_true_eq] at h1 h2 ⊢
  rcases h1 with h1 | ⟨h1e, h1m⟩
  · rcases h2 with h2 | ⟨h2e, h2m⟩
    · exact Or.inl (keyLt_trans _ _ _ h1 h2)
    · exact Or.inl (h2e ▸ h1)
  · rcases h2 with h2 | ⟨h2e, h2m⟩
    · exact Or.inl (h1e ▸ h2)
    · exact Or.inr ⟨h1e.trans h2e, keyLe_trans _ _ _ h1m h2m⟩

theorem rowLe_same_key (a b : SRow) (he : a.secName = b.secName)
    (h : rowLe a b = true) : keyLe a.meetingTimes b.meetingTimes = true := by
  unfold rowLe at h
  simp only [Bool.or_eq_true, Bool.and_eq_true, decide_eq_true_eq] at h
  rcases h with h | ⟨_, hm⟩
  · rw [he, keyLt_irrefl] at h
    exact absurd h (by simp)
  · exact hm

/-- Insert a row into a (sorted) list of rows. -/
def insertRow (r : SRow) : List SRow → List SRow
  | [] => [r]
  | x :: xs => if rowLe r x then r :: x :: xs else x :: insertRow r xs

/-- Insertion sort by `rowLe`, modelling `sort_values` (the source's pandas
sort uses quicksort, so order among rows with fully equal keys is
unspecified there; no claim below depends on the order of exact ties). -/
def sortRows : List SRow → List SRow
  | [] => []
  | r :: rs => insertRow r (sortRows rs)

theorem mem_insertRow (a r : SRow) :
    ∀ l : List SRow, a ∈ insertRow r l ↔ a = r ∨ a ∈ l := by
  intro l
  induction l with
  | nil => simp [insertRow]
  | cons x xs ih =>
      by_cases h : rowLe r x
      · simp [insertRow, h]
      · simp [insertRow, h, ih]
        tauto

theorem insertRow_perm (r : SRow) :
    ∀ l : List SRow, (insertRow r l).Perm (r :: l) := by
  intro l
  induction l with
  | nil => simp [insertRow]
  | cons x xs ih =>
      by_cases h : rowLe r x
      · simp [insertRow, h]
      · simp only [insertRow, h, if_false, Bool.false_eq_true]
        exact (ih.cons x).trans (List.Perm.swap r x xs)

theorem sortRows_perm : ∀ l : List SRow, (sortRows l).Perm l := by
  intro l
  induction l with
  | nil => simp [sortRows]
  | cons r rs ih => exact (insertRow_perm r (sortRows rs)).trans (ih.cons r)

theorem pairwise_insertRow (r : SRow) :
    ∀ l : List SRow, List.Pairwise (fun a b => rowLe a b = true) l →
      List.Pairwise (fun a b => rowLe a b = true) (insertRow r l) := by
  intro l
  induction l with
  | nil => intro _; simp [insertRow]
  | cons x xs ih =>
      intro hp
      rw [List.pairwise_cons] at hp
      by_cases h : rowLe r x
      · simp only [insertRow, h, if_true]
        rw [List.pairwise_cons]
        refine ⟨?_, List.pairwise_cons.mpr hp⟩
        intro b hb
        rcases List.mem_cons.mp hb with hb | hb
        · exact hb ▸ h
        · exact rowLe_trans _ _ _ h (hp.1 b hb)
      · simp only [insertRow, h, if_false, Bool.false_eq_true]
        rw [List.pairwise_cons]
        constructor
        · intro b hb
          rcases (mem_insertRow b r xs).mp hb with hb | hb
          · subst hb
            rcases rowLe_total x b with h2 | h2
            · exact h2
            · exact absurd h2 (by simp [h])
          · exact hp.1 b hb
        · exact ih hp.2

theorem sortRows_sorted :
    ∀ l : List SRow, List.Pairwise (fun a b => rowLe a b = true) (sortRows l) := by
  intro l
  induction l with
  | nil => simp [sortRows]
  | cons r rs ih => exact pairwise_insertRow r (sortRows rs) ih

/-- `drop_duplicates(subset=["Sec Name"], keep="first")`: walk the rows in
order, keeping a row only if its section name has not been seen yet (pandas
treats `NaN` keys as duplicates of each other). -/
def dedupSecAux : List SRow → List (Option String) → List SRow
  | [], _ => []
  | r :: rs, seen =>
      if r.secName ∈ seen then dedupSecAux rs seen
      else r :: dedupSecAux rs (r.secName :: seen)

/-- The plain dedup call sites (functions.py lines 289 and 742,
web_functions.py line 508): `df.drop_duplicates(subset="Sec Name")` with no
prior sort — the first row per section in SOURCE order survives. -/
def drop_duplicates_sec (l : List SRow) : List SRow := dedupSecAux l []

/-- options4.py `remove_duplicate_sections` (lines 420-439): sort by
`["Sec Name", "Meeting Times"]` with `na_position="last"`, then keep the
first row of each section name. -/
def remove_duplicate_sections (l : List SRow) : List SRow :=
  drop_duplicates_sec (sortRows l)

theorem mem_dedupSecAux_sub (a : SRow) :
    ∀ (l : List SRow) (seen : List (Option String)),
      a ∈ dedupSecAux l seen → a ∈ l := by
  intro l
  induction l with
  | nil => intro seen h; exact absurd h (by simp [dedupSecAux])
  | cons x xs ih =>
      intro seen h
      by_cases hx : x.secName ∈ seen
      · simp only [dedupSecAux, if_pos hx] at h
        exact List.mem_cons_of_mem _ (ih _ h)
      · simp only [dedupSecAux, if_neg hx] at h
        rcases List.mem_cons.mp h with h | h
        · exact h ▸ List.mem_cons_self _ _
        · exact List.mem_cons_of_mem _ (ih _ h)

theorem dedupSecAux_key_notin (a : SRow) :
    ∀ (l : List SRow) (seen : List (Option String)),
      a ∈ dedupSecAux l seen → a.secName ∉ seen := by
  intro l
  induction l with
  | nil => intro seen h; exact absurd h (by simp [dedupSecAux])
  | cons x xs ih =>
      intro seen h
      by_cases hx : x.secName ∈ seen
      · simp only [dedupSecAux, if_pos hx] at h
        exact ih _ h
      · simp only [dedupSecAux, if_neg hx] at h
        rcases List.mem_cons.mp h with h | h
        · exact h ▸ hx
        · intro hsn
          exact ih _ h (List.mem_cons_of_mem _ hsn)

theorem dedupSecAux_keys_nodup :
    ∀ (l : List SRow) (seen : List (Option String)),
      List.Nodup ((dedupSecAux l seen).map (fun r => r.secName)) := by
  intro l
  induction l with
  | nil => intro seen; simp [dedupSecAux]
  | cons x xs ih =>
      intro seen
      by_cases hx : x.secName ∈ seen
      · simp only [dedupSecAux, if_pos hx]
        exact ih seen
      · simp only [dedupSecAux, if_neg hx, List.map_cons]
        rw [List.nodup_cons]
        refine ⟨?_, ih _⟩
        intro hmem
        rcases List.mem_map.mp hmem with ⟨b, hb, hbk⟩
        exact dedupSecAux_key_notin b xs _ hb (hbk ▸ List.mem_cons_self _ _)

theorem dedupSecAux_cover (a : SRow) :
    ∀ (l : List SRow) (seen : List (Option String)),
      a ∈ l → a.secName ∉ seen →
      ∃ b ∈ dedupSecAux l seen, b.secName = a.secName := by
  intro l
  induction l with
  | nil => intro seen h; exact absurd h (by simp)
  | cons x xs ih =>
      intro seen ha hseen
      by_cases hx : x.secName ∈ seen
      · simp only [dedupSecAux, if_pos hx]
        rcases List.mem_cons.mp ha with ha | ha
        · exact absurd (ha ▸ hseen) (by simp [hx])
        · exact ih seen ha hseen
      · simp only [dedupSecAux, if_neg hx]
        rcases List.mem_cons.mp ha with ha | ha
        · exact ⟨x, List.mem_cons_self _ _, (ha ▸ rfl : x.secName = a.secName)⟩
        · by_cases hk : a.secName = x.secName
          · exact ⟨x, List.mem_cons_self _ _, hk.symm⟩
          · have : a.secName ∉ x.secName :: seen := by
              intro h
              rcases List.mem_cons.mp h with h | h
              · exact hk h
              · exact hseen h
            rcases ih _ ha this with ⟨b, hb, hbk⟩
            exact ⟨b, List.mem_cons_of_mem _ hb, hbk⟩

theorem dedupSecAux_min (a : SRow) :
    ∀ (l : List SRow) (seen : List (Option String)),
      List.Pairwise (fun x y => rowLe x y = true) l →
      a ∈ dedupSecAux l seen →
      ∀ b ∈ l, b.secName = a.secName →
        keyLe a.meetingTimes b.meetingTimes = true := by
  intro l
  induction l with
  | nil => intro seen _ h; exact absurd h (by simp [dedupSecAux])
  | cons x xs ih =>
      intro seen hp ha b hb hkey
      rw [List.pairwise_cons] at hp
      by_cases hx : x.secName ∈ seen
      · simp only [dedupSecAux, if_pos hx] at ha
        rcases List.mem_cons.mp hb with hb | hb
        · exfalso
          have := dedupSecAux_key_notin a xs seen ha
          exact this (hkey ▸ hb ▸ hx)
        · exact ih seen hp.2 ha b hb hkey
      · simp only [dedupSecAux, if_neg hx] at ha
        rcases List.mem_cons.mp ha with ha | ha
        · subst ha
          rcases List.mem_cons.mp hb with hb | hb
          · rw [hb, keyLe_refl]
          · exact rowLe_same_key a b hkey.symm (hp.1 b hb)
        · rcases List.mem_cons.mp hb with hb | hb
          · exfalso
            have := dedupSecAux_key_notin a xs _ ha
            exact this (by rw [← hkey, hb]; exact List.mem_cons_self _ _)
          · exact ih _ hp.2 ha b hb hkey

theorem dedupSecAux_congr :
    ∀ (l : List SRow) (s1 s2 : List (Option String)),
      (∀ k, k ∈ s1 ↔ k ∈ s2) → dedupSecAux l s1 = dedupSecAux l s2 := by
  intro l
  induction l with
  | nil => intro s1 s2 _; rfl
  | cons x xs ih =>
      intro s1 s2 hiff
      by_cases hx : x.secName ∈ s1
      · rw [dedupSecAux, dedupSecAux, if_pos hx, if_pos ((hiff _).mp hx)]
        exact ih s1 s2 hiff
      · rw [dedupSecAux, dedupSecAux, if_neg hx,
            if_neg (fun h => hx ((hiff _).mpr h))]
        refine congrArg _ (ih _ _ ?_)
        intro k
        simp [hiff k]

theorem dedupSecAux_filter_seen :
    ∀ (l : List SRow) (seen : List (Option String)) (k : Option String),
      k ∈ seen →
      dedupSecAux l seen =
        dedupSecAux (l.filter (fun y => !(y.secName == k))) seen := by
  intro l
  induction l with
  | nil => intro seen k _; rfl
  | cons x xs ih =>
      intro seen k hk
      by_cases hxk : x.secName = k
      · have hx : x.secName ∈ seen := hxk ▸ hk
        rw [dedupSecAux, if_pos hx]
        have : (x.secName == k) = true := by simp [hxk]
        simp only [List.filter_cons, this, Bool.not_true, Bool.false_eq_true,
                   if_false]
        exact ih seen k hk
      · have : (x.secName == k) = false := by simp [hxk]
        simp only [List.filter_cons, this, Bool.not_false, if_true]
        by_cases hx : x.secName ∈ seen
        · rw [dedupSecAux, if_pos hx, dedupSecAux, if_pos hx]
          exact ih seen k hk
        · rw [dedupSecAux, if_neg hx, dedupSecAux, if_neg hx]
          exact congrArg _ (ih _ k (List.mem_cons_of_mem _ hk))

theorem dedupSecAux_seen_irrelevant :
    ∀ (l : List SRow) (k : Option String) (seen : List (Option String)),
      (∀ y ∈ l, y.secName ≠ k) →
      dedupSecAux l (k :: seen) = dedupSecAux l seen := by
  intro l
  induction l with
  | nil => intro k seen _; rfl
  | cons x xs ih =>
      intro k seen hall
      have hxk : x.secName ≠ k := hall x (List.mem_cons_self _ _)
      by_cases hx : x.secName ∈ seen
      · rw [dedupSecAux, if_pos (List.mem_cons_of_mem _ hx), dedupSecAux,
            if_pos hx]
        exact ih k seen (fun y hy => hall y (List.mem_cons_of_mem _ hy))
      · have hx2 : x.secName ∉ k :: seen := by
          intro h
          rcases List.mem_cons.mp h with h | h
          · exact hxk h
          · exact hx h
        rw [dedupSecAux, if_neg hx2, dedupSecAux, if_neg hx]
        refine congrArg _ ?_
        rw [dedupSecAux_congr xs (x.secName :: k :: seen)
              (k :: x.secName :: seen) (by intro a; simp; tauto),
            ih k _ (fun y hy => hall y (List.mem_cons_of_mem _ hy))]

/-- C7 counterexample: the claim asserts that at EVERY dedup call site the
surviving row per section is the first of the meeting-time-sorted group.  At
the plain `drop_duplicates(subset="Sec Name")` call sites (functions.py
lines 289 and 742, web_functions.py line 508) there is no sort: the first row
in SOURCE order survives.  Two rows of the same section, source-ordered with
the later meeting time first: the plain path keeps the later-meeting-time row,
`remove_duplicate_sections` keeps the other one. -/
theorem claim_C7_counterexample :
    drop_duplicates_sec [⟨some "CSC-121-001", some "TTH 1:00PM", 1⟩,
                         ⟨some "CSC-121-001", some "MW 9:00AM", 2⟩] =
      [⟨some "CSC-121-001", some "TTH 1:00PM", 1⟩] ∧
    remove_duplicate_sections [⟨some "CSC-121-001", some "TTH 1:00PM", 1⟩,
                               ⟨some "CSC-121-001", some "MW 9:00AM", 2⟩] =
      [⟨some "CSC-121-001", some "MW 9:00AM", 2⟩] ∧
    keyLe (some "TTH 1:00PM") (some "MW 9:00AM") = false := by
  decide

/-- C7 (amended): `remove_duplicate_sections` sorts by (Sec Name,
Meeting Times) with missing values last and keeps the first row per section
name, so each survivor comes from the input, section names of survivors are
unique, every input section is represented, and each survivor's meeting times
are minimal (missing-last order) within its section group.  The OTHER dedup
call sites of the pipeline (option2_enrollment, fte_per_course,
calculate_fte_by_course) call plain `drop_duplicates(subset="Sec Name")`,
which keeps the first row per section in source order, not the meeting-time
minimum. -/
theorem claim_C7_dedup_semantics (rows : List SRow) (x : SRow)
    (xs : List SRow) :
    (∀ r ∈ remove_duplicate_sections rows, r ∈ rows) ∧
    List.Nodup ((remove_duplicate_sections rows).map (fun r => r.secName)) ∧
    (∀ r ∈ rows, ∃ b ∈ remove_duplicate_sections rows,
      b.secName = r.secName) ∧
    (∀ r ∈ remove_duplicate_sections rows, ∀ b ∈ rows,
      b.secName = r.secName → keyLe r.meetingTimes b.meetingTimes = true) ∧
    drop_duplicates_sec (x :: xs) =
      x :: drop_duplicates_sec (xs.filter (fun y => !(y.secName == x.secName))) := by
  refine ⟨?_, ?_, ?_, ?_, ?_⟩
  · intro r hr
    exact (sortRows_perm rows).mem_iff.mp
      (mem_dedupSecAux_sub r (sortRows rows) [] hr)
  · exact dedupSecAux_keys_nodup (sortRows rows) []
  · intro r hr
    exact dedupSecAux_cover r (sortRows rows) []
      ((sortRows_perm rows).mem_iff.mpr hr) (by simp)
  · intro r hr b hb hkey
    exact dedupSecAux_min r (sortRows rows) [] (sortRows_sorted rows) hr b
      ((sortRows_perm rows).mem_iff.mpr hb) hkey
  · show dedupSecAux (x :: xs) [] = _
    rw [dedupSecAux, if_neg (by simp)]
    refine congrArg _ ?_
    rw [dedupSecAux_filter_seen xs [x.secName] x.secName
          (List.mem_cons_self _ _),
        dedupSecAux_seen_irrelevant _ x.secName []
          (by
            intro y hy
            have := List.of_mem_filter hy
            simpa using this)]
    rfl

theorem claim_C7_dedup_semantics_witness :
    keyLe (some "MW 9:00AM") (some "TTH 1:00PM") = true ∧
    drop_duplicates_sec [⟨some "ABC-101-001", none, 0⟩,
                         ⟨some "ABC-101-001", some "MW 9:00AM", 1⟩] =
      [⟨some "ABC-101-001", none, 0⟩] := by
  have h := claim_C7_dedup_semantics
    [⟨some "CSC-121-001", some "TTH 1:00PM", 1⟩,
     ⟨some "CSC-121-001", some "MW 9:00AM", 2⟩]
    ⟨some "ABC-101-001", none, 0⟩
    [⟨some "ABC-101-001", some "MW 9:00AM", 1⟩]
  constructor
  · exact h.2.2.2.1 ⟨some "CSC-121-001", some "MW 9:00AM", 2⟩ (by decide)
      ⟨some "CSC-121-001", some "TTH 1:00PM", 1⟩ (by decide) rfl
  · exact h.2.2.2.2.trans (by decide)

/-! ## Enrollment percentage (functions.py `calc_enrollment` lines 292-304,
web_functions.py `calc_enrollment` lines 284-311, options4.py
`calculate_enrollment_percentage` lines 629-645). -/

/-- Two-digit zero padding for the fractional part of a fixed-point format. -/
def pad2 (k : ℕ) : String :=
  if k < 10 then "0" ++ toString k else toString k

/-- Python `"{:.2f}".format(q)` for a nonnegative rational. -/
def fmt2nn (q : ℚ) : String :=
  toString ((rhe (q * 100)).toNat / 100) ++ "." ++ pad2 ((rhe (q * 100)).toNat % 100)

/-- Python `"{:.2f}".format(q)` (half-even rounding at 2 decimals). -/
def fmt2 (q : ℚ) : String :=
  if q < 0 then "-" ++ fmt2nn (-q) else fmt2nn q

/-- The per-row enrollment computation of the dedicated enrollment report
(functions.py lines 292-304 inside `option2_enrollment`, identically
web_functions.py lines 284-311): `float(...)` failures on missing or
non-numeric Capacity / FTE Count (`none`) give "N/A%", a zero capacity gives
the literal "0%", otherwise `f"{(fte/cap)*100:.2f}%"`. -/
def calc_enrollment (capacity fteCount : Option ℚ) : String :=
  match capacity, fteCount with
  | some cap, some fte =>
      if cap = 0 then "0%" else fmt2 (fte / cap * 100) ++ "%"
  | _, _ => "N/A%"

/-- The numeric content of the vectorized batch path, options4.py
`calculate_enrollment_percentage` (lines 629-645): a capacity of 0 is first
replaced by `pd.NA` (so no percentage value exists for that row, `none`
here), otherwise `(count / capacity * 100).round(1)`.  The final
`.astype(str) + "%"` display cast of the series is outside the numeric
model. -/
def calculate_enrollment_percentage (count capacity : ℚ) : Option ℚ :=
  if capacity = 0 then none else some (rnd1 (count / capacity * 100))

theorem rhe_intCast (n : ℤ) : rhe ((n : ℤ) : ℚ) = n := by
  unfold rhe
  rw [Int.floor_intCast]
  rw [if_pos (by norm_num)]

/-- C8 counterexample: the claim says capacity = 0 yields "N/A%" in the
dedicated enrollment-report path and "0%" in the batch/vectorized path; the
dedicated path (`calc_enrollment`) actually returns the literal "0%" for a
zero capacity, and the vectorized path masks the zero capacity to a missing
value before dividing rather than producing "0%". -/
theorem claim_C8_counterexample :
    calc_enrollment (some 0) (some 30) = "0%" ∧
    ("0%" : String) ≠ "N/A%" ∧
    calculate_enrollment_percentage 30 0 = none := by
  refine ⟨?_, by decide, ?_⟩
  · simp [calc_enrollment]
  · simp [calculate_enrollment_percentage]

/-- C8 (amended): in the per-row enrollment-report path (`calc_enrollment`)
capacity = 0 yields the literal "0%", numeric inputs with capacity ≠ 0 yield
`headcount/capacity*100` formatted to two decimal places with a '%' suffix
(capacity = 40, headcount = 30 gives "75.00%"), and non-numeric or missing
inputs yield "N/A%" rather than an exception; in the batch/vectorized path
(`calculate_enrollment_percentage`) capacity = 0 is masked to a missing
value (no percentage, in particular not "0%"), and nonzero capacity gives
`count/capacity*100` rounded to 1 decimal place. -/
theorem claim_C8_enrollment (cap fte q : ℚ) (x : Option ℚ)
    (hcap : cap ≠ 0) :
    calc_enrollment (some 0) (some fte) = "0%" ∧
    calc_enrollment (some cap) (some fte) = fmt2 (fte / cap * 100) ++ "%" ∧
    calc_enrollment (some 40) (some 30) = "75.00%" ∧
    calc_enrollment none x = "N/A%" ∧
    calc_enrollment x none = "N/A%" ∧
    calculate_enrollment_percentage q 0 = none ∧
    calculate_enrollment_percentage q cap = some (rnd1 (q / cap * 100)) := by
  refine ⟨by simp [calc_enrollment], ?_, ?_, ?_, ?_,
          by simp [calculate_enrollment_percentage],
          by simp [calculate_enrollment_percentage, hcap]⟩
  · simp [calc_enrollment, hcap]
  · have hm : calc_enrollment (some 40) (some 30) =
        fmt2 ((30 : ℚ) / 40 * 100) ++ "%" := by
      norm_num [calc_enrollment]
    rw [hm]
    have h1 : (30 : ℚ) / 40 * 100 = ((75 : ℤ) : ℚ) := by norm_num
    rw [h1]
    unfold fmt2
    rw [if_neg (by norm_num)]
    unfold fmt2nn
    have h2 : ((75 : ℤ) : ℚ) * 100 = ((7500 : ℤ) : ℚ) := by norm_num
    rw [h2, rhe_intCast]
    rfl
  · cases x <;> rfl
  · cases x <;> rfl

theorem claim_C8_enrollment_witness :
    calc_enrollment (some 0) (some 30) = "0%" ∧
    calc_enrollment (some 40) (some 30) = fmt2 ((30 : ℚ) / 40 * 100) ++ "%" ∧
    calc_enrollment (some 40) (some 30) = "75.00%" ∧
    calc_enrollment none none = "N/A%" ∧
    calc_enrollment none none = "N/A%" ∧
    calculate_enrollment_percentage 30 0 = none ∧
    calculate_enrollment_percentage 30 40 = some (rnd1 ((30 : ℚ) / 40 * 100)) :=
  claim_C8_enrollment 40 30 30 none (by norm_num)

/-! ## Instructor report re-aggregation (app.py lines 604-662,
web_functions.py `generate_faculty_fte_report` lines 201-229). -/

/-- A row of the instructor FTE report as re-aggregated by the app: the
Course Code cell (regex-extracted, `none` = `NaN`; "TOTAL" on a summary row),
the Total FTE, and the Generated FTE. -/
structure FRow where
  courseCode : Option String
  totalFTE : Option ℚ
  genFTE : Option ℚ
deriving DecidableEq

/-- Python `str.upper()` on the ASCII course codes, character by character. -/
def strUpper (s : String) : String :=
  String.mk (s.data.map Char.toUpper)

/-- `df["Course Code"].astype(str).str.upper()`: `NaN` stringifies to "nan"
and upper-cases to "NAN". -/
def upperNaN (c : Option String) : String :=
  match c with
  | some s => strUpper s
  | none => "NAN"

/-- app.py line 607: remove rows whose upper-cased Course Code is "TOTAL"
(`report_df[~report_df["Course Code"].astype(str).str.upper().eq("TOTAL")]`). -/
def stripTotals (rows : List FRow) : List FRow :=
  rows.filter (fun r => !(upperNaN r.courseCode == "TOTAL"))

/-- `df["Total FTE"].sum()` (pandas skips `NaN`, contributing 0). -/
def sumT (rows : List FRow) : ℚ :=
  (rows.map (fun r => r.totalFTE.getD 0)).sum

/-- `df["Generated FTE"].sum()`. -/
def sumG (rows : List FRow) : ℚ :=
  (rows.map (fun r => r.genFTE.getD 0)).sum

/-- The summary row appended by `generate_faculty_fte_report`
(web_functions.py lines 204-227): Course Code "TOTAL" with the grand sums. -/
def addTotalRow (rows : List FRow) : List FRow :=
  rows ++ [⟨some "TOTAL", some (sumT rows), some (sumG rows)⟩]

/-- Per-course subtotal of Total FTE over the rows grouped by Course Code
(app.py lines 616-619). -/
def subT (rows : List FRow) (c : String) : ℚ :=
  ((rows.filter (fun r => r.courseCode == some c)).map
    (fun r => r.totalFTE.getD 0)).sum

/-- Per-course subtotal of Generated FTE. -/
def subG (rows : List FRow) (c : String) : ℚ :=
  ((rows.filter (fun r => r.courseCode == some c)).map
    (fun r => r.genFTE.getD 0)).sum

/-- C9: re-aggregating an already-aggregated instructor report (the raw rows
plus the appended "TOTAL" summary row) after stripping rows whose Course Code
upper-cases to "TOTAL" operates on exactly the raw rows again, so every
course subtotal and both grand totals equal those of a single aggregation of
the raw rows — and the recomputed grand totals also equal the sums stored in
the stripped summary row.  The hypothesis (no raw row's Course Code reads
"TOTAL") holds for regex-extracted course codes, which always contain a
hyphen. -/
theorem claim_C9_reaggregation_idempotent (rows : List FRow)
    (h : ∀ r ∈ rows, upperNaN r.courseCode ≠ "TOTAL") :
    stripTotals (addTotalRow rows) = rows ∧
    (∀ c, subT (stripTotals (addTotalRow rows)) c = subT rows c ∧
          subG (stripTotals (addTotalRow rows)) c = subG rows c) ∧
    sumT (stripTotals (addTotalRow rows)) = sumT rows ∧
    sumG (stripTotals (addTotalRow rows)) = sumG rows := by
  have hstrip : stripTotals (addTotalRow rows) = rows := by
    unfold stripTotals addTotalRow
    rw [List.filter_append]
    have h1 : rows.filter (fun r => !(upperNaN r.courseCode == "TOTAL")) = rows := by
      apply List.filter_eq_self.mpr
      intro r hr
      simp only [Bool.not_eq_eq_eq_not, Bool.not_true, beq_eq_false_iff_ne]
      exact h r hr
    have h2 : ([⟨some "TOTAL", some (sumT rows), some (sumG rows)⟩] :
        List FRow).filter (fun r => !(upperNaN r.courseCode == "TOTAL")) = [] := by
      simp only [List.filter_cons, List.filter_nil]
      rw [if_neg (by decide)]
    rw [h1, h2, List.append_nil]
  refine ⟨hstrip, fun c => ⟨by rw [hstrip], by rw [hstrip]⟩,
          by rw [hstrip], by rw [hstrip]⟩

theorem claim_C9_reaggregation_idempotent_witness :
    stripTotals (addTotalRow
      [⟨some "CSC-121", some 1, some 1926⟩, ⟨none, some 2, some 100⟩]) =
      [⟨some "CSC-121", some 1, some 1926⟩, ⟨none, some 2, some 100⟩] ∧
    subG (stripTotals (addTotalRow
      [⟨some "CSC-121", some 1, some 1926⟩, ⟨none, some 2, some 100⟩]))
      "CSC-121" =
      subG [⟨some "CSC-121", some 1, some 1926⟩, ⟨none, some 2, some 100⟩]
      "CSC-121" := by
  have h := claim_C9_reaggregation_idempotent
    [⟨some "CSC-121", some 1, some 1926⟩, ⟨none, some 2, some 100⟩]
    (by decide)
  exact ⟨h.1, (h.2.1 "CSC-121").2⟩

/-! ## Frame behaviour of `generate_fte` (options4.py lines 511-578). -/

theorem find?_replace_ne (c c' : String) (v : Cell) (h : c' ≠ c) :
    ∀ r : List (String × Cell),
      (r.map (fun p => if p.1 == c then (p.1, v) else p)).find?
        (fun p => p.1 == c') =
      r.find? (fun p => p.1 == c') := by
  intro r
  induction r with
  | nil => rfl
  | cons p ps ih =>
      by_cases hp : (p.1 == c) = true
      · simp only [List.map_cons, if_pos hp]
        have hkey : ¬ (p.1 == c') = true := by
          simp only [beq_iff_eq] at hp ⊢
          rw [hp]
          exact fun e => h e.symm
        rw [List.find?_cons_of_neg (p := fun q : String × Cell => q.1 == c')
              (a := (p.1, v)) _ hkey]
        rw [List.find?_cons_of_neg (p := fun q : String × Cell => q.1 == c')
              (a := p) _ hkey]
        exact ih
      · simp only [List.map_cons, if_neg hp]
        by_cases hk : (p.1 == c') = true
        · rw [List.find?_cons_of_pos (p := fun q : String × Cell => q.1 == c')
                (a := p) _ hk]
          rw [List.find?_cons_of_pos (p := fun q : String × Cell => q.1 == c')
                (a := p) _ hk]
        · rw [List.find?_cons_of_neg (p := fun q : String × Cell => q.1 == c') _ hk]
          rw [List.find?_cons_of_neg (p := fun q : String × Cell => q.1 == c') _ hk]
          exact ih

theorem find?_replace_self (c : String) (v : Cell) :
    ∀ r : List (String × Cell),
      (r.find? (fun p => p.1 == c)).isSome = true →
      ((r.map (fun p => if p.1 == c then (p.1, v) else p)).find?
        (fun p => p.1 == c)).map (fun p => p.2) = some v := by
  intro r
  induction r with
  | nil => intro h; simp [List.find?] at h
  | cons p ps ih =>
      intro h
      by_cases hp : (p.1 == c) = true
      · simp only [List.map_cons, if_pos hp]
        rw [List.find?_cons_of_pos (p := fun q : String × Cell => q.1 == c)
              (a := (p.1, v)) _ hp]
        rfl
      · simp only [List.map_cons, if_neg hp]
        rw [List.find?_cons_of_neg (p := fun q : String × Cell => q.1 == c) _ hp]
        apply ih
        rwa [List.find?_cons_of_neg (p := fun q : String × Cell => q.1 == c) _ hp] at h

theorem getCol_setColRow_ne (r : List (String × Cell)) (c c' : String)
    (v : Cell) (h : c' ≠ c) :
    getCol (setColRow r c v) c' = getCol r c' := by
  unfold setColRow getCol
  by_cases hf : (r.find? (fun p => p.1 == c)).isSome = true
  · rw [if_pos hf, find?_replace_ne c c' v h r]
  · rw [if_neg hf, List.find?_append]
    have h2 : List.find? (fun p : String × Cell => p.1 == c') [(c, v)] = none := by
      rw [List.find?_cons_of_neg (p := fun q : String × Cell => q.1 == c')]
      · rfl
      · simp only [beq_iff_eq]
        exact fun e => h e.symm
    rw [h2, Option.or_none]

theorem getCol_setColRow_self (r : List (String × Cell)) (c : String)
    (v : Cell) :
    getCol (setColRow r c v) c = v := by
  unfold setColRow getCol
  by_cases hf : (r.find? (fun p => p.1 == c)).isSome = true
  · rw [if_pos hf, find?_replace_self c v r hf]
    rfl
  · rw [if_neg hf, List.find?_append]
    have h1 : r.find? (fun p => p.1 == c) = none := by
      cases h' : r.find? (fun p => p.1 == c) with
      | none => rfl
      | some p0 => rw [h'] at hf; simp at hf
    rw [h1]
    have h2 : List.find? (fun p : String × Cell => p.1 == c) [(c, v)] =
        some (c, v) := by
      rw [List.find?_cons_of_pos (p := fun q : String × Cell => q.1 == c) _ (by simp)]
    rw [Option.none_or, h2]
    rfl

theorem getCol_dropColRow_ne (r : List (String × Cell)) (c c' : String)
    (h : c' ≠ c) :
    getCol (dropColRow r c) c' = getCol r c' := by
  unfold dropColRow getCol
  rw [List.find?_filter]
  have hpred : (fun a : String × Cell =>
      decide ((!(a.1 == c)) = true ∧ (a.1 == c') = true)) =
      (fun a : String × Cell => a.1 == c') := by
    funext a
    by_cases hk : (a.1 == c') = true
    · have : (!(a.1 == c)) = true := by
        simp only [beq_iff_eq] at hk ⊢
        simp only [Bool.not_eq_true', beq_eq_false_iff_ne]
        rw [hk]
        exact fun e => h e
      simp [hk, this]
    · simp [hk]
  rw [hpred]

theorem compute_fte_setColRow (r : List (String × Cell)) (c : String)
    (v : Cell) (d : List (Cell × Cell)) (s : ℚ)
    (h1 : ("Sec Name" : String) ≠ c) (h2 : ("Total FTE" : String) ≠ c) :
    compute_fte (setColRow r c v) d s = compute_fte r d s := by
  unfold compute_fte
  rw [getCol_setColRow_ne r c "Sec Name" v h1,
      getCol_setColRow_ne r c "Total FTE" v h2]

theorem mem_setCol_cols (df : DFrame) (c0 : String)
    (f : List (String × Cell) → Cell) (c : String) :
    c ∈ (setCol df c0 f).cols ↔ (c ∈ df.cols ∨ c = c0) := by
  unfold setCol
  by_cases h : c0 ∈ df.cols
  · simp only [if_pos h]
    constructor
    · exact Or.inl
    · rintro (hc | hc)
      · exact hc
      · exact hc ▸ h
  · simp [if_neg h, List.mem_append]

theorem mem_dropCol_cols (df : DFrame) (c0 c : String) :
    c ∈ (dropCol df c0).cols ↔ (c ∈ df.cols ∧ c ≠ c0) := by
  unfold dropCol
  simp [List.mem_filter]

/-- C10 counterexample: on an input frame that ALREADY has a
"Generated FTE" column (value 999), `generate_fte` overwrites that
pre-existing column with the computed value, so the output does not agree
with the input on every pre-existing column. -/
theorem claim_C10_counterexample :
    "Generated FTE" ∈ (⟨["Sec Name", "Total FTE", "Generated FTE"],
      [[("Sec Name", Cell.str "CSC-121-001"), ("Total FTE", Cell.num 1),
        ("Generated FTE", Cell.num 999)]]⟩ : DFrame).cols ∧
    getCol ((generate_fte
      ⟨["Sec Name", "Total FTE", "Generated FTE"],
       [[("Sec Name", Cell.str "CSC-121-001"), ("Total FTE", Cell.num 1),
         ("Generated FTE", Cell.num 999)]]⟩
      ⟨["Prefix/Course ID", "New Sector"], []⟩ 1926).rows.getD 0 [])
      "Generated FTE" = Cell.num 1926 ∧
    getCol (((⟨["Sec Name", "Total FTE", "Generated FTE"],
      [[("Sec Name", Cell.str "CSC-121-001"), ("Total FTE", Cell.num 1),
        ("Generated FTE", Cell.num 999)]]⟩ : DFrame)).rows.getD 0 [])
      "Generated FTE" = Cell.num 999 ∧
    Cell.num 1926 ≠ Cell.num 999 := by
  refine ⟨by decide, ?_, by decide, by decide⟩
  simp +decide [generate_fte, tierDict, setCol, dropCol, setColRow, dropColRow,
    getCol, dictGet, compute_fte, pfxCell, List.find?]

/-- C10 (amended): when any required column is missing, `generate_fte`
returns the data unchanged instead of raising; when all required columns are
present, the output has the same number of rows, a "Generated FTE" column
holding `compute_fte` of each original row, and agrees with the input on
every column other than "Generated FTE" (which is set, OVERWRITING any
pre-existing values) and the internal scratch column "_Course Prefix" (which
is removed). -/
theorem claim_C10_frame (data tier : DFrame) (support : ℚ) :
    (¬ ("Prefix/Course ID" ∈ tier.cols ∧ "New Sector" ∈ tier.cols ∧
        "Sec Name" ∈ data.cols ∧ "Total FTE" ∈ data.cols) →
      generate_fte data tier support = data) ∧
    (("Prefix/Course ID" ∈ tier.cols ∧ "New Sector" ∈ tier.cols ∧
      "Sec Name" ∈ data.cols ∧ "Total FTE" ∈ data.cols) →
      (generate_fte data tier support).rows.length = data.rows.length ∧
      "Generated FTE" ∈ (generate_fte data tier support).cols ∧
      (∀ c, c ≠ "Generated FTE" → c ≠ "_Course Prefix" →
        ((c ∈ (generate_fte data tier support).cols ↔ c ∈ data.cols) ∧
         ∀ i, getCol ((generate_fte data tier support).rows.getD i []) c =
              getCol (data.rows.getD i []) c)) ∧
      (∀ i, i < data.rows.length →
        getCol ((generate_fte data tier support).rows.getD i [])
            "Generated FTE" =
          Cell.num (compute_fte (data.rows.getD i []) (tierDict tier)
            support))) := by
  constructor
  · intro h
    unfold generate_fte
    rw [if_neg h]
  · intro h
    have hrows : (generate_fte data tier support).rows =
        data.rows.map (fun r => dropColRow (setColRow
          (setColRow r "_Course Prefix" (pfxCell (getCol r "Sec Name")))
          "Generated FTE" (Cell.num (compute_fte (setColRow r "_Course Prefix"
            (pfxCell (getCol r "Sec Name"))) (tierDict tier) support)))
          "_Course Prefix") := by
      unfold generate_fte
      rw [if_pos h]
      simp only [setCol, dropCol, List.map_map]
      rfl
    have hmemcols : ∀ c, c ∈ (generate_fte data tier support).cols ↔
        ((c ∈ data.cols ∨ c = "_Course Prefix" ∨ c = "Generated FTE") ∧
         c ≠ "_Course Prefix") := by
      intro c
      unfold generate_fte
      rw [if_pos h]
      show c ∈ (dropCol _ "_Course Prefix").cols ↔ _
      rw [mem_dropCol_cols, mem_setCol_cols, mem_setCol_cols]
      tauto
    refine ⟨?_, ?_, ?_, ?_⟩
    · rw [hrows, List.length_map]
    · exact (hmemcols "Generated FTE").mpr ⟨Or.inr (Or.inr rfl), by decide⟩
    · intro c hgf hcp
      constructor
      · rw [hmemcols c]
        constructor
        · rintro ⟨hc | hc | hc, _⟩
          · exact hc
          · exact absurd hc hcp
          · exact absurd hc hgf
        · intro hc
          exact ⟨Or.inl hc, hcp⟩
      · intro i
        rw [hrows, List.getD_eq_getElem?_getD, List.getElem?_map,
            List.getD_eq_getElem?_getD]
        cases h' : data.rows[i]? with
        | none => rfl
        | some r =>
            show getCol (dropColRow _ "_Course Prefix") c = getCol r c
            rw [getCol_dropColRow_ne _ _ _ hcp,
                getCol_setColRow_ne _ _ _ _ hgf,
                getCol_setColRow_ne _ _ _ _ hcp]
    · intro i hi
      rw [hrows, List.getD_eq_getElem?_getD, List.getElem?_map]
      cases h' : data.rows[i]? with
      | none =>
          exfalso
          have := List.getElem?_eq_none_iff.mp h'
          omega
      | some r =>
          show getCol (dropColRow _ "_Course Prefix") "Generated FTE" = _
          rw [getCol_dropColRow_ne _ _ _ (by decide), getCol_setColRow_self,
              compute_fte_setColRow _ _ _ _ _ (by decide) (by decide),
              List.getD_eq_getElem?_getD, h']
          rfl

theorem claim_C10_frame_witness :
    generate_fte
      ⟨["Sec Name", "Total FTE"],
       [[("Sec Name", Cell.str "CSC-121-001"), ("Total FTE", Cell.num 1)]]⟩
      ⟨[], []⟩ 1926 =
      ⟨["Sec Name", "Total FTE"],
       [[("Sec Name", Cell.str "CSC-121-001"), ("Total FTE", Cell.num 1)]]⟩ ∧
    "Generated FTE" ∈ (generate_fte
      ⟨["Sec Name", "Total FTE"],
       [[("Sec Name", Cell.str "CSC-121-001"), ("Total FTE", Cell.num 1)]]⟩
      ⟨["Prefix/Course ID", "New Sector"], []⟩ 1926).cols ∧
    getCol ((generate_fte
      ⟨["Sec Name", "Total FTE"],
       [[("Sec Name", Cell.str "CSC-121-001"), ("Total FTE", Cell.num 1)]]⟩
      ⟨["Prefix/Course ID", "New Sector"], []⟩ 1926).rows.getD 0 [])
      "Generated FTE" =
      Cell.num (compute_fte
        ((⟨["Sec Name", "Total FTE"],
          [[("Sec Name", Cell.str "CSC-121-001"),
            ("Total FTE", Cell.num 1)]]⟩ : DFrame).rows.getD 0 [])
        (tierDict ⟨["Prefix/Course ID", "New Sector"], []⟩) 1926) := by
  refine ⟨(claim_C10_frame
      ⟨["Sec Name", "Total FTE"],
       [[("Sec Name", Cell.str "CSC-121-001"), ("Total FTE", Cell.num 1)]]⟩
      ⟨[], []⟩ 1926).1 (by decide), ?_, ?_⟩
  · exact ((claim_C10_frame
      ⟨["Sec Name", "Total FTE"],
       [[("Sec Name", Cell.str "CSC-121-001"), ("Total FTE", Cell.num 1)]]⟩
      ⟨["Prefix/Course ID", "New Sector"], []⟩ 1926).2 (by decide)).2.1
  · exact ((claim_C10_frame
      ⟨["Sec Name", "Total FTE"],
       [[("Sec Name", Cell.str "CSC-121-001"), ("Total FTE", Cell.num 1)]]⟩
      ⟨["Prefix/Course ID", "New Sector"], []⟩ 1926).2 (by decide)).2.2.2 0
      (by decide)

/-! ## Course-code extraction (options4.py `get_course_codes` lines 747-767,
regex `^([A-Z]{3}-\d{3}[A-Z]?)` via `re.match`, i.e. anchored at the start;
functions.py `readfile` lines 72-75, regex `([A-Z]{3}-\d{3})` via
`Series.str.extract`, i.e. `re.search` anywhere in the string, no optional
trailing letter). -/

/-- Does a 7-character list have the shape `[A-Z]{3}-\d{3}`? -/
def ccShape7 (l : List Char) : Bool :=
  match l with
  | [a, b, c, h, d, e, f] =>
      a.isUpper && b.isUpper && c.isUpper && (h == '-') &&
      d.isDigit && e.isDigit && f.isDigit
  | _ => false

/-- Does a list have the shape `[A-Z]{3}-\d{3}` or `[A-Z]{3}-\d{3}[A-Z]`? -/
def ccShape (l : List Char) : Bool :=
  match l with
  | [a, b, c, h, d, e, f] =>
      a.isUpper && b.isUpper && c.isUpper && (h == '-') &&
      d.isDigit && e.isDigit && f.isDigit
  | [a, b, c, h, d, e, f, g] =>
      a.isUpper && b.isUpper && c.isUpper && (h == '-') &&
      d.isDigit && e.isDigit && f.isDigit && g.isUpper
  | _ => false

/-- `re.match(r"^([A-Z]{3}-\d{3}[A-Z]?)", ...)` on a character list: an
anchored match of three uppercase letters, a hyphen, three digits, and
greedily one trailing uppercase letter if present. -/
def matchCCList (l : List Char) : Option (List Char) :=
  match l with
  | a :: b :: c :: h :: d :: e :: f :: rest =>
      if a.isUpper && b.isUpper && c.isUpper && (h == '-') &&
         d.isDigit && e.isDigit && f.isDigit then
        match rest with
        | g :: _ =>
            if g.isUpper then some [a, b, c, h, d, e, f, g]
            else some [a, b, c, h, d, e, f]
        | [] => some [a, b, c, h, d, e, f]
      else none
  | _ => none

/-- The course-code matcher of options4.py `get_course_codes`:
`re.match(r"^([A-Z]{3}-\d{3}[A-Z]?)", code)`, returning group 1 or `None`. -/
def courseCodeMatch (s : String) : Option String :=
  (matchCCList s.data).map (fun l => String.mk l)

/-- options4.py `get_course_codes` (lines 747-767): the set of anchored
course-code matches over a list of section names. -/
def get_course_codes (courses : List String) : Finset String :=
  (courses.filterMap courseCodeMatch).toFinset

/-- An anchored 7-character match of `[A-Z]{3}-\d{3}` (no optional letter),
one trial position of `re.search(r"([A-Z]{3}-\d{3})", ...)`. -/
def matchCC7 (l : List Char) : Option (List Char) :=
  match l with
  | a :: b :: c :: h :: d :: e :: f :: _ =>
      if a.isUpper && b.isUpper && c.isUpper && (h == '-') &&
         d.isDigit && e.isDigit && f.isDigit then
        some [a, b, c, h, d, e, f]
      else none
  | _ => none

/-- `re.search`: try the anchored match at each position, leftmost wins. -/
def searchCC (l : List Char) : Option (List Char) :=
  match l with
  | [] => none
  | x :: rest =>
      match matchCC7 (x :: rest) with
      | some t => some t
      | none => searchCC rest

/-- The course-code extraction of functions.py `readfile` (lines 72-75):
`Sec Name".str.extract(r"([A-Z]{3}-\d{3})")`, a search anywhere in the
string for three uppercase letters, a hyphen and three digits. -/
def extractCourseCode (s : String) : Option String :=
  (searchCC s.data).map (fun l => String.mk l)

theorem ccShape7_inv (p : List Char) (h : ccShape7 p = true) :
    ∃ a b c hy d e f, p = [a, b, c, hy, d, e, f] ∧
      (a.isUpper && b.isUpper && c.isUpper && (hy == '-') &&
       d.isDigit && e.isDigit && f.isDigit) = true := by
  match p, h with
  | [a, b, c, hy, d, e, f], h => exact ⟨a, b, c, hy, d, e, f, rfl, h⟩

theorem matchCC7_some (l t : List Char) (h : matchCC7 l = some t) :
    (∃ v, l = t ++ v) ∧ ccShape7 t = true := by
  match l, h with
  | a :: b :: c :: hy :: d :: e :: f :: rest, h =>
      rw [matchCC7] at h
      by_cases hg : (a.isUpper && b.isUpper && c.isUpper && (hy == '-') &&
          d.isDigit && e.isDigit && f.isDigit) = true
      · rw [if_pos hg] at h
        obtain rfl : [a, b, c, hy, d, e, f] = t := Option.some.inj h
        exact ⟨⟨rest, rfl⟩, by simp [ccShape7, hg]⟩
      · rw [if_neg hg] at h
        exact absurd h (by simp)

theorem matchCC7_of_shape (p v : List Char) (h : ccShape7 p = true) :
    matchCC7 (p ++ v) = some p := by
  obtain ⟨a, b, c, hy, d, e, f, rfl, hg⟩ := ccShape7_inv p h
  show matchCC7 (a :: b :: c :: hy :: d :: e :: f :: v) = _
  rw [matchCC7, if_pos hg]

theorem matchCCList_some (l t : List Char) (h : matchCCList l = some t) :
    (∃ v, l = t ++ v) ∧ ccShape t = true := by
  match l, h with
  | a :: b :: c :: hy :: d :: e :: f :: rest, h =>
      simp only [matchCCList] at h
      by_cases hg : (a.isUpper && b.isUpper && c.isUpper && (hy == '-') &&
          d.isDigit && e.isDigit && f.isDigit) = true
      · rw [if_pos hg] at h
        match rest, h with
        | [], h =>
            obtain rfl : [a, b, c, hy, d, e, f] = t := Option.some.inj h
            exact ⟨⟨[], rfl⟩, by simp [ccShape, hg]⟩
        | g :: rest2, h =>
            replace h : (if g.isUpper = true then some [a, b, c, hy, d, e, f, g]
                else some [a, b, c, hy, d, e, f]) = some t := h
            by_cases hgu : g.isUpper = true
            · rw [if_pos hgu] at h
              obtain rfl : [a, b, c, hy, d, e, f, g] = t := Option.some.inj h
              refine ⟨⟨rest2, rfl⟩, ?_⟩
              simp only [ccShape]
              simp only [Bool.and_eq_true] at hg ⊢
              exact ⟨hg, hgu⟩
            · rw [if_neg hgu] at h
              obtain rfl : [a, b, c, hy, d, e, f] = t := Option.some.inj h
              exact ⟨⟨g :: rest2, rfl⟩, by simp [ccShape, hg]⟩
      · rw [if_neg hg] at h
        exact absurd h (by simp)

theorem matchCCList_of_shape (p v : List Char) (h : ccShape7 p = true) :
    matchCCList (p ++ v) ≠ none := by
  obtain ⟨a, b, c, hy, d, e, f, rfl, hg⟩ := ccShape7_inv p h
  show matchCCList (a :: b :: c :: hy :: d :: e :: f :: v) ≠ none
  simp only [matchCCList]
  rw [if_pos hg]
  match v with
  | [] => simp
  | g :: rest2 =>
      show (if g.isUpper = true then some [a, b, c, hy, d, e, f, g]
          else some [a, b, c, hy, d, e, f]) ≠ none
      by_cases hgu : g.isUpper = true
      · rw [if_pos hgu]; simp
      · rw [if_neg hgu]; simp

theorem searchCC_some (l t : List Char) (h : searchCC l = some t) :
    (∃ u v, l = u ++ t ++ v) ∧ ccShape7 t = true := by
  induction l with
  | nil => exact absurd h (by simp [searchCC])
  | cons x rest ih =>
      rw [searchCC] at h
      cases hm : matchCC7 (x :: rest) with
      | some t2 =>
          rw [hm] at h
          obtain rfl : t2 = t := Option.some.inj h
          obtain ⟨⟨v, hv⟩, hs⟩ := matchCC7_some _ _ hm
          exact ⟨⟨[], v, by simpa using hv⟩, hs⟩
      | none =>
          rw [hm] at h
          obtain ⟨⟨u, v, huv⟩, hs⟩ := ih h
          exact ⟨⟨x :: u, v, by simp [huv]⟩, hs⟩

theorem searchCC_none (l : List Char) (h : searchCC l = none) :
    ∀ p u v : List Char, l = u ++ p ++ v → ccShape7 p = false := by
  induction l with
  | nil =>
      intro p u v he
      have hp : p = [] := by
        rcases List.append_eq_nil.mp he.symm with ⟨h1, _⟩
        rcases List.append_eq_nil.mp h1 with ⟨_, h2⟩
        exact h2
      rw [hp]
      rfl
  | cons x rest ih =>
      intro p u v he
      rw [searchCC] at h
      cases hm : matchCC7 (x :: rest) with
      | some t2 => rw [hm] at h; exact absurd h (by simp)
      | none =>
          rw [hm] at h
          match u, he with
          | [], he =>
              by_cases hs : ccShape7 p = true
              · exfalso
                have := matchCC7_of_shape p v hs
                rw [List.nil_append] at he
                rw [he] at hm
                rw [this] at hm
                exact absurd hm (by simp)
              · exact Bool.not_eq_true _ ▸ eq_false_of_ne_true hs
          | w :: u2, he =>
              have hrest : rest = u2 ++ p ++ v := by
                have := List.cons.inj he
                exact this.2
              exact ih h p u2 v hrest

/-- C4 counterexample: the claim says extraction "returns the substring"
matching the course-code pattern and "a null result when no such substring
exists".  The anchored matcher used by `get_course_codes`
(`re.match(r"^([A-Z]{3}-\d{3}[A-Z]?)", ...)`) returns None on "0CSC-121"
although the matching substring "CSC-121" exists in it — and the
search-based extractor of `readfile` finds it on the same input, so the two
cited call sites disagree and neither single behaviour satisfies the claim. -/
theorem claim_C4_counterexample :
    courseCodeMatch "0CSC-121" = none ∧
    extractCourseCode "0CSC-121" = some "CSC-121" ∧
    (∃ u v, ("0CSC-121").data = u ++ ("CSC-121").data ++ v) ∧
    ccShape7 (("CSC-121").data) = true := by
  refine ⟨by decide, by decide, ⟨['0'], [], by decide⟩, by decide⟩

/-- C4 (amended): course-code extraction has two distinct behaviours in the
source.  `get_course_codes` matches only at the START of the string: it
returns the prefix of shape uppercase-3-letters, hyphen, 3 digits, optionally
one trailing uppercase letter, and None exactly when the string has no prefix
of that shape.  `readfile`'s extractor searches ANYWHERE in the string for
the shape without the trailing letter, returning the leftmost such substring,
and None exactly when no such substring exists.  "CSC-121-001" yields
"CSC-121" in both and "ENG111" yields no match in both; both functions are
total (never raise on any string). -/
theorem claim_C4_course_code_extraction :
    (∀ s t : String, courseCodeMatch s = some t →
        (∃ v, s.data = t.data ++ v) ∧ ccShape t.data = true) ∧
    (∀ s : String, courseCodeMatch s = none →
        ∀ p v : List Char, s.data = p ++ v → ccShape7 p = false) ∧
    (∀ s t : String, extractCourseCode s = some t →
        (∃ u v, s.data = u ++ t.data ++ v) ∧ ccShape7 t.data = true) ∧
    (∀ s : String, extractCourseCode s = none →
        ∀ p u v : List Char, s.data = u ++ p ++ v → ccShape7 p = false) ∧
    courseCodeMatch "CSC-121-001" = some "CSC-121" ∧
    extractCourseCode "CSC-121-001" = some "CSC-121" ∧
    courseCodeMatch "ENG111" = none ∧
    extractCourseCode "ENG111" = none := by
  refine ⟨?_, ?_, ?_, ?_, by decide, by decide, by decide, by decide⟩
  · intro s t h
    unfold courseCodeMatch at h
    cases hm : matchCCList s.data with
    | none => rw [hm] at h; exact absurd h (by simp)
    | some l =>
        rw [hm] at h
        obtain rfl : String.mk l = t := Option.some.inj h
        exact matchCCList_some _ _ hm
  · intro s h p v he
    unfold courseCodeMatch at h
    cases hm : matchCCList s.data with
    | some l => rw [hm] at h; exact absurd h (by simp)
    | none =>
        by_cases hs : ccShape7 p = true
        · exfalso
          rw [he] at hm
          exact matchCCList_of_shape p v hs hm
        · exact Bool.not_eq_true _ ▸ eq_false_of_ne_true hs
  · intro s t h
    unfold extractCourseCode at h
    cases hm : searchCC s.data with
    | none => rw [hm] at h; exact absurd h (by simp)
    | some l =>
        rw [hm] at h
        obtain rfl : String.mk l = t := Option.some.inj h
        exact searchCC_some _ _ hm
  · intro s h p u v he
    unfold extractCourseCode at h
    cases hm : searchCC s.data with
    | some l => rw [hm] at h; exact absurd h (by simp)
    | none => exact searchCC_none _ hm p u v he

theorem claim_C4_course_code_extraction_witness :
    ((∃ v, ("CSC-121A").data = ("CSC-121A").data ++ v) ∧
      ccShape (("CSC-121A").data) = true) ∧
    ccShape7 (("ENG").data) = false := by
  constructor
  · exact claim_C4_course_code_extraction.1 "CSC-121A" "CSC-121A" (by decide)
  · exact claim_C4_course_code_extraction.2.1 "ENG" (by decide)
      ("ENG").data [] (by decide)
